import Mathlib

/-!
Shallow embedding of `src/temporal_event_predictor/core/ml/occurrence_features.py`
(class `OccurrenceFeatureExtractor`).

Modelling conventions:
* An event record is represented by its date, an integer day number (`ℤ`);
  day 0 is taken to be a Monday, so `weekday d = d % 7` matches the
  Monday=0 .. Sunday=6 convention of `datetime.weekday()` and pandas
  `dt.dayofweek`.  A history (DataFrame with a date column) is a `List ℤ`.
* Python `str` is modelled as `List Char`; `str.startswith` is
  `List.isPrefixOf`, `str.split(sep)` for a one-character separator is
  `pySplit`, and f-string concatenation is list append (with
  `Nat.toDigits 10` for the decimal rendering of `len(history)`).
* The extractor's mutable `_cache` dict is explicit state: an
  insertion-ordered association list with unique keys, threaded through
  `computeEntityStats`, `extractFeatures` and `shouldPredictEvent`.
* Real-valued statistics (`np.mean`, `np.std`) are modelled exactly:
  means and variances of integer gap lists are rationals, and `np.std`
  (population standard deviation) is `Real.sqrt` of the variance.
  `history_span_days` on an empty history is pandas `NaT.days` (nan),
  modelled as `none : Option ℤ`.
* `week_of_month` comes from an external collaborator module that is not
  part of this file's source; it is passed as an opaque function
  parameter `wom : ℤ → ℤ` wherever `extract_features` needs it.
-/

namespace OccurrenceFeatures

/-- Weekday of an integer day number, Monday = 0 .. Sunday = 6
(`datetime.weekday()` / pandas `dt.dayofweek`). -/
def weekday (d : ℤ) : ℕ := (d % 7).toNat

/-- Minimum of the date column (`history[DFCols.DATE].min()`); the value on an
empty list is never used by the source paths we model. -/
def minDate : List ℤ → ℤ
  | [] => 0
  | d :: ds => ds.foldl min d

/-- Maximum of the date column (`history[DFCols.DATE].max()`). -/
def maxDate : List ℤ → ℤ
  | [] => 0
  | d :: ds => ds.foldl max d

/-- Ascending stable sort of the history by date
(`history.sort_values(DFCols.DATE)`). -/
def sortDates (history : List ℤ) : List ℤ :=
  List.insertionSort (fun a b : ℤ => a ≤ b) history

/-- Record stored per weekday by `_compute_weekday_stats`:
`{occurrence_count, occurrence_rate, total_opportunities}`. -/
structure WeekdayStat where
  occurrence_count : ℕ
  occurrence_rate : ℚ
  total_opportunities : ℕ

/-- Loop body of `_count_weekdays_in_range`: starting at day `current`, count
how many of the next `n` consecutive days fall on weekday `target`. -/
def countWeekdaysInRangeAux (current : ℤ) (target : ℕ) : ℕ → ℕ
  | 0 => 0
  | n + 1 =>
    (if weekday current = target then 1 else 0) + countWeekdaysInRangeAux (current + 1) target n

/-- Embedding of `_count_weekdays_in_range(start_date, end_date, target_weekday)`:
the `while current <= end_date` loop runs once per day of the inclusive span. -/
def countWeekdaysInRange (start_date end_date : ℤ) (target : ℕ) : ℕ :=
  if end_date < start_date then 0
  else countWeekdaysInRangeAux start_date target ((end_date - start_date).toNat + 1)

/-- Per-weekday record built inside the `for weekday in range(7)` loop of
`_compute_weekday_stats`: the occurrence count is `value_counts` of the
weekday over the date column, the opportunity total is
`_count_weekdays_in_range(min_date, max_date, weekday)`, and the rate is their
quotient guarded by `total_opportunities > 0`. -/
def weekdayStat (history : List ℤ) (min_date max_date : ℤ) (w : ℕ) : WeekdayStat :=
  let c := history.countP (fun d => weekday d == w)
  let t := countWeekdaysInRange min_date max_date w
  ⟨c, if 0 < t then (c : ℚ) / t else 0, t⟩

/-- Embedding of `_compute_weekday_stats(history)`: empty input yields the empty
mapping, otherwise one entry per weekday index 0..6. -/
def computeWeekdayStats (history : List ℤ) : List (ℕ × WeekdayStat) :=
  if history = [] then []
  else (List.range 7).map fun w => (w, weekdayStat history (minDate history) (maxDate history) w)

/-- Recursion over the sorted date list mirroring the
`for i in range(1, len(dates))` loop of `_compute_gaps_between_events`:
keep each consecutive difference that is strictly positive. -/
def computeGapsFromDates : List ℤ → List ℤ
  | [] => []
  | [_] => []
  | d1 :: d2 :: rest =>
    if 0 < d2 - d1 then (d2 - d1) :: computeGapsFromDates (d2 :: rest)
    else computeGapsFromDates (d2 :: rest)

/-- Embedding of `_compute_gaps_between_events(history)` (history already
sorted by the caller): fewer than 2 records yields the empty gap list. -/
def computeGapsBetweenEvents (history : List ℤ) : List ℤ :=
  if history.length < 2 then [] else computeGapsFromDates history

/-- Exact value of `np.mean` on a list of integers. -/
def listMeanQ (l : List ℤ) : ℚ :=
  (l.map fun x => (x : ℚ)).sum / (l.length : ℚ)

/-- Exact value of the population variance used by `np.std` on a list of
integers: mean of the squared deviations from the mean. -/
def listVarianceQ (l : List ℤ) : ℚ :=
  (l.map fun x => ((x : ℚ) - listMeanQ l) ^ 2).sum / (l.length : ℚ)

/-- Exact value of `np.std` (population standard deviation). -/
noncomputable def listStd (l : List ℤ) : ℝ :=
  Real.sqrt (listVarianceQ l)

/-- Embedding of `float(np.std(gaps)) if len(gaps) > 1 else 0.0` from
`compute_entity_stats`. -/
noncomputable def stddevGap (gaps : List ℤ) : ℝ :=
  if 1 < gaps.length then listStd gaps else 0

/-- Embedding of `_compute_periodicity_score(gaps)`: 0.0 below 3 gaps, 0.0 on a
zero mean, otherwise `1 / (1 + cv)` with `cv = std/mean`. -/
noncomputable def computePeriodicityScore (gaps : List ℤ) : ℝ :=
  if gaps.length < 3 then 0
  else if listMeanQ gaps = 0 then 0
  else 1 / (1 + listStd gaps / (listMeanQ gaps : ℝ))

/-- Result record of `compute_entity_stats` (the cached unit).
`history_span_days` is `none` exactly when the pandas expression
`(max - min).days` is `NaT.days` (nan), i.e. on an empty history. -/
structure EntityStats where
  weekday_stats : List (ℕ × WeekdayStat)
  stddev_gap_between_events : ℝ
  periodicity_score : ℝ
  total_events : ℕ
  history_span_days : Option ℤ

/-- Cache-miss computation performed by `compute_entity_stats`: sort the
history, then build weekday stats, gap statistics and the periodicity score. -/
noncomputable def computeEntityStatsPure (history : List ℤ) : EntityStats :=
  let history_sorted := sortDates history
  let gaps := computeGapsBetweenEvents history_sorted
  { weekday_stats := computeWeekdayStats history_sorted
    stddev_gap_between_events := stddevGap gaps
    periodicity_score := computePeriodicityScore gaps
    total_events := history.length
    history_span_days :=
      if history = [] then none else some (maxDate history_sorted - minDate history_sorted) }

/-- Python `str` as a character sequence. -/
abbrev PyStr := List Char

/-- Embedding of the extractor's `_cache` dict: an insertion-ordered
association list with pairwise distinct keys. -/
abbrev Cache := List (PyStr × EntityStats)

/-- Cache key `f"{entity_id}_{len(history)}"`. -/
def cacheKey (entity_id : PyStr) (history_len : ℕ) : PyStr :=
  entity_id ++ '_' :: Nat.toDigits 10 history_len

/-- Embedding of `compute_entity_stats(entity_id, history)` on an explicit
cache state: return the cached record on a key hit, otherwise compute, store
(dict insertion appends a fresh key at the end) and return. -/
noncomputable def computeEntityStats (cache : Cache) (entity_id : PyStr) (history : List ℤ) :
    EntityStats × Cache :=
  let key := cacheKey entity_id history.length
  match cache.lookup key with
  | some stats => (stats, cache)
  | none =>
    let stats := computeEntityStatsPure history
    (stats, cache ++ [(key, stats)])

/-- Result record of `extract_features`. -/
structure FeatureVector where
  weekday_occurrence_rate : ℚ
  weekday_occurrence_count : ℕ
  stddev_gap_between_events : ℝ
  periodicity_score : ℝ
  week_of_month : ℤ

/-- Embedding of `extract_features(entity_id, target_date, history)`; `wom` is
the external `get_week_of_month` collaborator.  The weekday record defaults to
`{occurrence_count: 0, occurrence_rate: 0.0, total_opportunities: 0}` when the
target weekday is absent from `weekday_stats`. -/
noncomputable def extractFeatures (wom : ℤ → ℤ) (cache : Cache) (entity_id : PyStr)
    (target_date : ℤ) (history : List ℤ) : FeatureVector × Cache :=
  let sc := computeEntityStats cache entity_id history
  let info := (sc.1.weekday_stats.lookup (weekday target_date)).getD ⟨0, 0, 0⟩
  ({ weekday_occurrence_rate := info.occurrence_rate
     weekday_occurrence_count := info.occurrence_count
     stddev_gap_between_events := sc.1.stddev_gap_between_events
     periodicity_score := sc.1.periodicity_score
     week_of_month := wom target_date }, sc.2)

/-- Justification strings returned by `should_predict_event`, abstracted to
their constructor and numeric payload. -/
inductive Reason
  | insufficientSample (occurrence_count : ℕ) (min_occurrence_count : ℤ)
  | rateTooLow (occurrence_rate min_occurrence_rate : ℚ)
  | authorized (occurrence_rate : ℚ) (occurrence_count : ℕ)
deriving DecidableEq

/-- Embedding of `should_predict_event`: the ordered rule cascade over the
extracted weekday occurrence count and rate (source defaults are
`min_occurrence_count = 2`, `min_occurrence_rate = 0.15`). -/
noncomputable def shouldPredictEvent (wom : ℤ → ℤ) (cache : Cache) (entity_id : PyStr)
    (target_date : ℤ) (history : List ℤ) (min_occurrence_count : ℤ)
    (min_occurrence_rate : ℚ) : (Bool × ℚ × Reason) × Cache :=
  let fc := extractFeatures wom cache entity_id target_date history
  let c : ℤ := fc.1.weekday_occurrence_count
  let r : ℚ := fc.1.weekday_occurrence_rate
  if c < min_occurrence_count then
    ((false, 0, Reason.insufficientSample fc.1.weekday_occurrence_count min_occurrence_count),
      fc.2)
  else if r < min_occurrence_rate then
    ((false, r, Reason.rateTooLow r min_occurrence_rate), fc.2)
  else
    ((true, r, Reason.authorized r fc.1.weekday_occurrence_count), fc.2)

/-- Embedding of `clear_cache(entity_id)`.  A `None` (or falsy, i.e. empty)
`entity_id` clears everything; otherwise every key `k` with
`k.startswith(entity_id)` is deleted, which dict deletion turns into a filter
on the remaining entries. -/
def clearCache (cache : Cache) (entity_id : Option PyStr) : Cache :=
  match entity_id with
  | none => []
  | some e =>
    if e = [] then []
    else cache.filter fun kv => ! List.isPrefixOf e kv.1

/-- Python `s.split(sep)` for a one-character separator `sep`. -/
def pySplit (sep : Char) : List Char → List (List Char)
  | [] => [[]]
  | c :: cs =>
    if c = sep then [] :: pySplit sep cs
    else
      match pySplit sep cs with
      | [] => [[c]]
      | s :: ss => (c :: s) :: ss

/-- Embedding of `get_cache_stats()`:
`cache_size = len(self._cache)` and
`cached_entities = len(set(k.split('_')[0] for k in self._cache.keys()))`. -/
def getCacheStats (cache : Cache) : ℕ × ℕ :=
  (cache.length, ((cache.map fun kv => (pySplit '_' kv.1).headD []).dedup).length)

/-- Day-by-day enumeration of the inclusive calendar span `[start_date, end_date]`,
the reference denominator of the weekday-rate specification. -/
def daySpanList (start_date end_date : ℤ) : List ℤ :=
  if end_date < start_date then []
  else (List.range ((end_date - start_date).toNat + 1)).map fun i : ℕ => start_date + (i : ℤ)

theorem weekday_lt_7 (d : ℤ) : weekday d < 7 := by
  have h7 : (0 : ℤ) < 7 := by norm_num
  have := Int.emod_lt_of_pos d h7
  have := Int.emod_nonneg d (by norm_num : (7 : ℤ) ≠ 0)
  unfold weekday
  omega

theorem foldl_min_le_init (ds : List ℤ) (a : ℤ) : ds.foldl min a ≤ a := by
  induction ds generalizing a with
  | nil => simp
  | cons e es ih => exact le_trans (ih (min a e)) (min_le_left a e)

theorem foldl_min_le_mem (ds : List ℤ) (a x : ℤ) (hx : x ∈ ds) : ds.foldl min a ≤ x := by
  induction ds generalizing a with
  | nil => cases hx
  | cons e es ih =>
    rcases List.mem_cons.1 hx with rfl | hx'
    · exact le_trans (foldl_min_le_init es (min a x)) (min_le_right a x)
    · exact ih (min a e) hx'

theorem minDate_le (l : List ℤ) (x : ℤ) (hx : x ∈ l) : minDate l ≤ x := by
  cases l with
  | nil => cases hx
  | cons d ds =>
    rcases List.mem_cons.1 hx with rfl | hx'
    · exact foldl_min_le_init ds x
    · exact foldl_min_le_mem ds d x hx'

theorem init_le_foldl_max (ds : List ℤ) (a : ℤ) : a ≤ ds.foldl max a := by
  induction ds generalizing a with
  | nil => simp
  | cons e es ih => exact le_trans (le_max_left a e) (ih (max a e))

theorem mem_le_foldl_max (ds : List ℤ) (a x : ℤ) (hx : x ∈ ds) : x ≤ ds.foldl max a := by
  induction ds generalizing a with
  | nil => cases hx
  | cons e es ih =>
    rcases List.mem_cons.1 hx with rfl | hx'
    · exact le_trans (le_max_right a x) (init_le_foldl_max es (max a x))
    · exact ih (max a e) hx'

theorem le_maxDate (l : List ℤ) (x : ℤ) (hx : x ∈ l) : x ≤ maxDate l := by
  cases l with
  | nil => cases hx
  | cons d ds =>
    rcases List.mem_cons.1 hx with rfl | hx'
    · exact init_le_foldl_max ds x
    · exact mem_le_foldl_max ds d x hx'

theorem lookup_append {α β : Type} [BEq α] (k : α) (l₁ l₂ : List (α × β)) :
    (l₁ ++ l₂).lookup k =
      match l₁.lookup k with
      | some v => some v
      | none => l₂.lookup k := by
  induction l₁ with
  | nil => simp [List.lookup]
  | cons p l ih =>
    cases p with
    | mk a b =>
      cases hb : (k == a) with
      | true => simp [List.lookup, hb]
      | false => simp [List.lookup, hb, ih]

theorem lookup_range_map {β : Type} (f : ℕ → β) (n w : ℕ) (s : β) :
    (List.lookup w ((List.range n).map fun i => (i, f i))) = some s ↔ w < n ∧ s = f w := by
  induction n generalizing s with
  | zero => simp [List.lookup]
  | succ m ih =>
    rw [List.range_succ, List.map_append, lookup_append]
    cases hp : List.lookup w ((List.range m).map fun i => (i, f i)) with
    | some v =>
      have hv := ih v
      have ⟨hwm, hvf⟩ := hv.1 hp
      constructor
      · intro hs
        injection hs with hs
        exact ⟨Nat.lt_succ_of_lt hwm, hs ▸ hvf⟩
      · intro ⟨_, hsf⟩
        simp [hsf, hvf]
    | none =>
      have hwm : ¬ w < m := by
        intro hlt
        have := (ih (f w)).2 ⟨hlt, rfl⟩
        rw [hp] at this
        cases this
      by_cases hwem : w = m
      · subst hwem
        simp [List.lookup]
        constructor
        · intro hs; exact hs.symm
        · intro hs; exact hs.symm
      · have hb : (w == m) = false := by simpa using hwem
        simp [List.lookup, hb]
        intro h
        omega

theorem lookup_computeWeekdayStats (history : List ℤ) (hne : history ≠ []) (w : ℕ) (s : WeekdayStat) :
    (computeWeekdayStats history).lookup w = some s ↔
      w < 7 ∧ s = weekdayStat history (minDate history) (maxDate history) w := by
  unfold computeWeekdayStats
  rw [if_neg hne]
  exact lookup_range_map _ 7 w s

theorem mem_daySpanList (s e x : ℤ) : x ∈ daySpanList s e ↔ s ≤ x ∧ x ≤ e := by
  unfold daySpanList
  by_cases h : e < s
  · rw [if_pos h]
    simp
    omega
  · rw [if_neg h]
    simp only [List.mem_map, List.mem_range]
    constructor
    · rintro ⟨i, hi, rfl⟩
      omega
    · intro ⟨h1, h2⟩
      exact ⟨(x - s).toNat, by omega, by omega⟩

theorem nodup_daySpanList (s e : ℤ) : (daySpanList s e).Nodup := by
  unfold daySpanList
  by_cases h : e < s
  · rw [if_pos h]; exact List.nodup_nil
  · rw [if_neg h]
    refine (List.nodup_range _).map ?_
    intro i j hij
    simp only [add_right_inj, Nat.cast_inj] at hij
    exact hij

theorem countWeekdaysInRangeAux_eq (target : ℕ) (n : ℕ) :
    ∀ c : ℤ, countWeekdaysInRangeAux c target n =
      ((List.range n).map fun i : ℕ => c + (i : ℤ)).countP (fun d => weekday d == target) := by
  induction n with
  | zero => intro c; simp [countWeekdaysInRangeAux]
  | succ m ih =>
    intro c
    have hstep : countWeekdaysInRangeAux c target (m + 1) =
        (if weekday c = target then 1 else 0) + countWeekdaysInRangeAux (c + 1) target m := rfl
    rw [hstep, List.range_succ_eq_map, List.map_cons, List.map_map, List.countP_cons]
    have hmap : (List.range m).map ((fun i : ℕ => c + (i : ℤ)) ∘ Nat.succ) =
        (List.range m).map fun i : ℕ => (c + 1) + (i : ℤ) := by
      apply List.map_congr_left
      intro i _
      simp only [Function.comp_apply]
      push_cast
      ring
    rw [hmap, ← ih (c + 1)]
    by_cases hc : weekday c = target
    · have hb : (weekday c == target) = true := by simpa using hc
      simp only [hb, if_pos hc, Nat.cast_zero, add_zero, if_true]
      omega
    · have hb : (weekday c == target) = false := by simpa using hc
      simp only [hb, if_neg hc, Nat.cast_zero, add_zero, Bool.false_eq_true, if_false,
        zero_add, Nat.add_zero]

theorem countWeekdaysInRange_eq_countP (s e : ℤ) (w : ℕ) :
    countWeekdaysInRange s e w = (daySpanList s e).countP (fun d => weekday d == w) := by
  unfold countWeekdaysInRange daySpanList
  by_cases h : e < s
  · rw [if_pos h, if_pos h]; rfl
  · rw [if_neg h, if_neg h, countWeekdaysInRangeAux_eq]

theorem sortDates_perm (history : List ℤ) : (sortDates history).Perm history :=
  List.perm_insertionSort _ history

theorem sortDates_ne_nil (history : List ℤ) (h : history ≠ []) : sortDates history ≠ [] := by
  intro hs
  apply h
  have := (sortDates_perm history).length_eq
  rw [hs] at this
  exact List.eq_nil_of_length_eq_zero this.symm

theorem computeGapsFromDates_eq (l : List ℤ) :
    computeGapsFromDates l =
      (List.zipWith (fun a b => a - b) l.tail l).filter fun g => decide (0 < g) := by
  induction l with
  | nil => rfl
  | cons d1 rest ih =>
    cases rest with
    | nil => rfl
    | cons d2 rest' =>
      have hstep : computeGapsFromDates (d1 :: d2 :: rest') =
          if 0 < d2 - d1 then (d2 - d1) :: computeGapsFromDates (d2 :: rest')
          else computeGapsFromDates (d2 :: rest') := rfl
      rw [hstep, ih]
      by_cases hg : 0 < d2 - d1
      · rw [if_pos hg]
        simp [List.filter_cons, hg]
      · rw [if_neg hg]
        simp [List.filter_cons, hg]

theorem countP_weekday_le_opportunities (l : List ℤ) (hnd : l.Nodup) (w : ℕ) :
    l.countP (fun d => weekday d == w) ≤ countWeekdaysInRange (minDate l) (maxDate l) w := by
  rw [countWeekdaysInRange_eq_countP, List.countP_eq_length_filter, List.countP_eq_length_filter]
  have hnd1 : (l.filter fun d => weekday d == w).Nodup := hnd.filter _
  have hsub : (l.filter fun d => weekday d == w).toFinset ⊆
      ((daySpanList (minDate l) (maxDate l)).filter fun d => weekday d == w).toFinset := by
    intro x hx
    rw [List.mem_toFinset, List.mem_filter] at hx
    rw [List.mem_toFinset, List.mem_filter]
    exact ⟨(mem_daySpanList _ _ x).2 ⟨minDate_le l x hx.1, le_maxDate l x hx.1⟩, hx.2⟩
  calc (l.filter fun d => weekday d == w).length
      = (l.filter fun d => weekday d == w).toFinset.card :=
        (List.toFinset_card_of_nodup hnd1).symm
    _ ≤ ((daySpanList (minDate l) (maxDate l)).filter fun d => weekday d == w).toFinset.card :=
        Finset.card_le_card hsub
    _ ≤ ((daySpanList (minDate l) (maxDate l)).filter fun d => weekday d == w).length :=
        List.toFinset_card_le _

/-- C7: on an empty history, `compute_entity_stats` raises no fault and returns
the graceful defaults: empty `weekday_stats`, gap standard deviation 0.0,
periodicity score 0.0, zero total events, and the undefined (`NaT`-valued,
modelled `none`) span. -/
theorem empty_history_graceful_defaults :
    computeEntityStatsPure [] = ⟨[], 0, 0, 0, none⟩ ∧
    ∀ e : PyStr, (computeEntityStats [] e []).1 = ⟨[], 0, 0, 0, none⟩ := by
  exact ⟨rfl, fun e => rfl⟩

/-- C5: the gap list is exactly the list of consecutive whole-day differences
of the date-sorted history with the zero gaps (same-day duplicates) dropped;
fewer than 2 records yield `[]`, and a three-event history with two events
sharing a date contributes exactly one gap. -/
theorem gaps_consecutive_positive_only :
    (∀ dates : List ℤ, computeGapsBetweenEvents dates =
        (List.zipWith (fun a b => a - b) dates.tail dates).filter fun g => decide (0 < g)) ∧
    (∀ dates : List ℤ, dates.length < 2 → computeGapsBetweenEvents dates = []) ∧
    computeGapsBetweenEvents (sortDates [3, 0, 3]) = [3] := by
  refine ⟨?_, ?_, rfl⟩
  · intro dates
    cases dates with
    | nil => rfl
    | cons d rest =>
      cases rest with
      | nil => rfl
      | cons d2 rest' =>
        have : computeGapsBetweenEvents (d :: d2 :: rest') =
            computeGapsFromDates (d :: d2 :: rest') := by
          unfold computeGapsBetweenEvents
          rw [if_neg (by simp)]
        rw [this, computeGapsFromDates_eq]
  · intro dates hlen
    unfold computeGapsBetweenEvents
    rw [if_pos hlen]

/-- C3: `total_opportunities` agrees with the day-by-day enumeration of the
inclusive span for every range and weekday, and on the two-full-week history
`[0, 7, 13]` (events on the Mondays 0 and 7, span of 14 calendar dates) Monday
gets `occurrence_count = 2`, `total_opportunities = 2`, `occurrence_rate = 1`. -/
theorem total_opportunities_day_by_day :
    (∀ s e : ℤ, ∀ w : ℕ, countWeekdaysInRange s e w =
        (daySpanList s e).countP fun d => weekday d == w) ∧
    (∃ s : WeekdayStat, (computeEntityStatsPure [0, 7, 13]).weekday_stats.lookup 0 = some s ∧
      s.occurrence_count = 2 ∧ s.total_opportunities = 2 ∧ s.occurrence_rate = 1) ∧
    (computeEntityStatsPure [0, 7, 13]).history_span_days = some 13 := by
  refine ⟨countWeekdaysInRange_eq_countP, ?_, rfl⟩
  refine ⟨weekdayStat (sortDates [0, 7, 13]) (minDate (sortDates [0, 7, 13]))
    (maxDate (sortDates [0, 7, 13])) 0, rfl, by decide, by decide, ?_⟩
  have h1 : (sortDates [0, 7, 13]).countP (fun d => weekday d == 0) = 2 := by decide
  have h2 : countWeekdaysInRange (minDate (sortDates [0, 7, 13]))
      (maxDate (sortDates [0, 7, 13])) 0 = 2 := by decide
  simp only [weekdayStat, h1, h2]
  norm_num

/-- C2 (counterexample): the history `[0, 0]` (two events on the same Monday)
yields `occurrence_count = 2 > 1 = total_opportunities` for weekday 0, so the
claimed invariant fails for histories with same-day duplicate events. -/
theorem same_day_duplicates_break_count_bound :
    ∃ s : WeekdayStat, (computeEntityStatsPure [0, 0]).weekday_stats.lookup 0 = some s ∧
      s.total_opportunities < s.occurrence_count :=
  ⟨weekdayStat (sortDates [0, 0]) (minDate (sortDates [0, 0])) (maxDate (sortDates [0, 0])) 0,
    rfl, by decide⟩

/-- C2 (amended): for histories whose event dates are pairwise distinct (no
same-day duplicates), every weekday entry satisfies
`occurrence_count <= total_opportunities`; the rate equations hold for every
history: `occurrence_rate = occurrence_count / total_opportunities` when
`total_opportunities > 0` and `occurrence_rate = 0` otherwise. -/
theorem weekday_stats_invariant_nodup (h : List ℤ) (w : ℕ) (s : WeekdayStat)
    (hs : (computeEntityStatsPure h).weekday_stats.lookup w = some s) :
    (h.Nodup → s.occurrence_count ≤ s.total_opportunities) ∧
    (0 < s.total_opportunities →
      s.occurrence_rate = (s.occurrence_count : ℚ) / (s.total_opportunities : ℚ)) ∧
    (s.total_opportunities = 0 → s.occurrence_rate = 0) := by
  have hne : h ≠ [] := by
    intro h0
    subst h0
    have : (computeWeekdayStats (sortDates [])).lookup w = some s := hs
    simp [computeWeekdayStats, sortDates, List.insertionSort, List.lookup] at this
  have hne' : sortDates h ≠ [] := sortDates_ne_nil h hne
  have hs2 : (computeWeekdayStats (sortDates h)).lookup w = some s := hs
  obtain ⟨hw7, rfl⟩ := (lookup_computeWeekdayStats (sortDates h) hne' w s).1 hs2
  refine ⟨fun hnd => countP_weekday_le_opportunities (sortDates h)
    (((sortDates_perm h).nodup_iff).2 hnd) w, ?_, ?_⟩
  · intro ht
    have ht' : 0 < countWeekdaysInRange (minDate (sortDates h)) (maxDate (sortDates h)) w := ht
    show (if 0 < countWeekdaysInRange (minDate (sortDates h)) (maxDate (sortDates h)) w then
        (((sortDates h).countP fun d => weekday d == w : ℕ) : ℚ) /
          (countWeekdaysInRange (minDate (sortDates h)) (maxDate (sortDates h)) w : ℚ)
      else 0) = _
    rw [if_pos ht']
    rfl
  · intro ht
    have ht' : countWeekdaysInRange (minDate (sortDates h)) (maxDate (sortDates h)) w = 0 := ht
    show (if 0 < countWeekdaysInRange (minDate (sortDates h)) (maxDate (sortDates h)) w then
        (((sortDates h).countP fun d => weekday d == w : ℕ) : ℚ) /
          (countWeekdaysInRange (minDate (sortDates h)) (maxDate (sortDates h)) w : ℚ)
      else 0) = 0
    rw [if_neg (by omega)]

/-- C2 (witness): the duplicate-free two-day history `[0, 1]` satisfies the
amended invariant on weekday 0. -/
theorem weekday_stats_invariant_nodup_app :
    (([0, 1] : List ℤ).Nodup →
      (weekdayStat (sortDates [0, 1]) (minDate (sortDates [0, 1]))
        (maxDate (sortDates [0, 1])) 0).occurrence_count ≤
      (weekdayStat (sortDates [0, 1]) (minDate (sortDates [0, 1]))
        (maxDate (sortDates [0, 1])) 0).total_opportunities) ∧
    (0 < (weekdayStat (sortDates [0, 1]) (minDate (sortDates [0, 1]))
        (maxDate (sortDates [0, 1])) 0).total_opportunities →
      (weekdayStat (sortDates [0, 1]) (minDate (sortDates [0, 1]))
          (maxDate (sortDates [0, 1])) 0).occurrence_rate =
        ((weekdayStat (sortDates [0, 1]) (minDate (sortDates [0, 1]))
            (maxDate (sortDates [0, 1])) 0).occurrence_count : ℚ) /
          ((weekdayStat (sortDates [0, 1]) (minDate (sortDates [0, 1]))
            (maxDate (sortDates [0, 1])) 0).total_opportunities : ℚ)) ∧
    ((weekdayStat (sortDates [0, 1]) (minDate (sortDates [0, 1]))
        (maxDate (sortDates [0, 1])) 0).total_opportunities = 0 →
      (weekdayStat (sortDates [0, 1]) (minDate (sortDates [0, 1]))
        (maxDate (sortDates [0, 1])) 0).occurrence_rate = 0) :=
  weekday_stats_invariant_nodup [0, 1] 0 _ rfl

/-- C5 (witness): a single-record history produces the empty gap list. -/
theorem gaps_consecutive_positive_only_app :
    computeGapsBetweenEvents [5] = [] :=
  gaps_consecutive_positive_only.2.1 [5] (by decide)

/-- C10: for every non-empty history the weekday map of the computed stats has
an entry for all seven weekday indices; the absent-weekday default of
`extract_features` can therefore only fire on an empty history, including when
the stats are produced through a fresh (empty) cache. -/
theorem weekday_stats_cover_all_weekdays :
    (∀ h : List ℤ, h ≠ [] → ∀ w : ℕ, w < 7 →
      ((computeEntityStatsPure h).weekday_stats.lookup w).isSome = true) ∧
    (∀ (h : List ℤ) (d : ℤ),
      (computeEntityStatsPure h).weekday_stats.lookup (weekday d) = none → h = []) ∧
    (∀ (e : PyStr) (h : List ℤ) (d : ℤ), h ≠ [] →
      ((computeEntityStats [] e h).1.weekday_stats.lookup (weekday d)).isSome = true) := by
  have key : ∀ h : List ℤ, h ≠ [] → ∀ w : ℕ, w < 7 →
      ((computeEntityStatsPure h).weekday_stats.lookup w).isSome = true := by
    intro h hne w hw
    have hne' := sortDates_ne_nil h hne
    have hsome : (computeWeekdayStats (sortDates h)).lookup w =
        some (weekdayStat (sortDates h) (minDate (sortDates h)) (maxDate (sortDates h)) w) :=
      (lookup_computeWeekdayStats _ hne' w _).2 ⟨hw, rfl⟩
    show ((computeWeekdayStats (sortDates h)).lookup w).isSome = true
    rw [hsome]
    rfl
  refine ⟨key, ?_, ?_⟩
  · intro h d hnone
    by_contra hne
    have := key h hne (weekday d) (weekday_lt_7 d)
    rw [hnone] at this
    cases this
  · intro e h d hne
    exact key h hne (weekday d) (weekday_lt_7 d)

/-- C10 (witness): the one-event history `[0]` has a weekday-0 entry. -/
theorem weekday_stats_cover_all_weekdays_app :
    ((computeEntityStatsPure [0]).weekday_stats.lookup 0).isSome = true :=
  weekday_stats_cover_all_weekdays.1 [0] (by decide) 0 (by decide)

/-- C4: the periodicity score is 0.0 below 3 gaps, 0.0 on a zero mean, and
otherwise exactly `1 / (1 + cv)` with `cv = (population std of gaps) / mean`;
gaps `[7, 7, 7, 7]` score 1.0 and gaps `[1, 2]` score 0.0. -/
theorem periodicity_score_formula :
    (∀ gaps : List ℤ, gaps.length < 3 → computePeriodicityScore gaps = 0) ∧
    (∀ gaps : List ℤ, 3 ≤ gaps.length → listMeanQ gaps ≠ 0 →
      computePeriodicityScore gaps = 1 / (1 + listStd gaps / (listMeanQ gaps : ℝ))) ∧
    (∀ gaps : List ℤ, listMeanQ gaps = 0 → computePeriodicityScore gaps = 0) ∧
    computePeriodicityScore [7, 7, 7, 7] = 1 ∧
    computePeriodicityScore [1, 2] = 0 := by
  refine ⟨?_, ?_, ?_, ?_, rfl⟩
  · intro gaps hlen
    unfold computePeriodicityScore
    rw [if_pos hlen]
  · intro gaps hlen hm
    unfold computePeriodicityScore
    rw [if_neg (by omega), if_neg hm]
  · intro gaps hm
    unfold computePeriodicityScore
    by_cases hlen : gaps.length < 3
    · rw [if_pos hlen]
    · rw [if_neg hlen, if_pos hm]
  · have hm : listMeanQ [7, 7, 7, 7] = 7 := by
      unfold listMeanQ
      norm_num
    have hv : listVarianceQ [7, 7, 7, 7] = 0 := by
      unfold listVarianceQ
      rw [hm]
      norm_num
    unfold computePeriodicityScore
    rw [if_neg (by norm_num), if_neg (by rw [hm]; norm_num)]
    unfold listStd
    rw [hv, hm]
    norm_num

/-- C4 (witness): the short gap list `[0, 5]` is scored 0.0 by the
too-few-gaps rule, and `[7, 7, 7]` is scored by the `1 / (1 + cv)` formula. -/
theorem periodicity_score_formula_app :
    computePeriodicityScore [0, 5] = 0 ∧
    computePeriodicityScore [7, 7, 7] =
      1 / (1 + listStd [7, 7, 7] / (listMeanQ [7, 7, 7] : ℝ)) :=
  ⟨periodicity_score_formula.1 [0, 5] (by decide),
   periodicity_score_formula.2.1 [7, 7, 7] (by decide) (by norm_num [listMeanQ])⟩

/-- C8: recomputing `compute_entity_stats` with the same `(entity_id, history)`
returns the same record, leaves the cache state unchanged (the second call is a
pure cache hit on the stored key), and keeps `get_cache_stats` fixed. -/
theorem compute_entity_stats_idempotent (cache : Cache) (e : PyStr) (h : List ℤ) :
    (computeEntityStats (computeEntityStats cache e h).2 e h).1 =
        (computeEntityStats cache e h).1 ∧
    (computeEntityStats (computeEntityStats cache e h).2 e h).2 =
        (computeEntityStats cache e h).2 ∧
    (computeEntityStats cache e h).2.lookup (cacheKey e h.length) =
        some (computeEntityStats cache e h).1 ∧
    getCacheStats (computeEntityStats (computeEntityStats cache e h).2 e h).2 =
      getCacheStats (computeEntityStats cache e h).2 := by
  cases hl : cache.lookup (cacheKey e h.length) with
  | some v =>
    have h1 : computeEntityStats cache e h = (v, cache) := by
      simp only [computeEntityStats, hl]
    rw [h1]
    simp [computeEntityStats, hl]
  | none =>
    have h1 : computeEntityStats cache e h =
        (computeEntityStatsPure h,
          cache ++ [(cacheKey e h.length, computeEntityStatsPure h)]) := by
      simp only [computeEntityStats, hl]
    have hsecond : (cache ++ [(cacheKey e h.length, computeEntityStatsPure h)]).lookup
        (cacheKey e h.length) = some (computeEntityStatsPure h) := by
      rw [lookup_append, hl]
      simp [List.lookup]
    rw [h1]
    simp [computeEntityStats, hsecond]

/-- Cache state reached by computing stats for the entity ids `"A"`, `"A1"`
and `"AB"`, each over a one-event history, starting from an empty cache. -/
noncomputable def collidingCache : Cache :=
  (computeEntityStats (computeEntityStats (computeEntityStats [] "A".data [0]).2
    "A1".data [0]).2 "AB".data [0]).2

/-- C1 (code evaluation at the failing input): the cache holds the keys
`"A_1"`, `"A1_1"`, `"AB_1"` for the three distinct entities `"A"`, `"A1"`,
`"AB"`, yet `clear_cache("A")` deletes all three entries because the source
matches keys with `startswith`, not by exact first-segment comparison. -/
theorem clear_cache_removes_colliding_entities :
    collidingCache.map Prod.fst = ["A_1".data, "A1_1".data, "AB_1".data] ∧
    clearCache collidingCache (some "A".data) = [] :=
  ⟨rfl, rfl⟩

/-- C9 (amended): `get_cache_stats` reports the total number of cached entries
and the number of distinct first `'_'`-separated segments of the keys (which
equals the number of distinct entity ids only when no entity id contains the
separator). -/
theorem cache_stats_first_segments (cache : Cache) :
    getCacheStats cache =
      (cache.length, ((cache.map fun kv => (pySplit '_' kv.1).headD []).toFinset).card) := by
  unfold getCacheStats
  rw [List.card_toFinset]

/-- Cache state reached by computing stats for the two distinct entity ids
`"a_b"` and `"a_c"` (ids containing the reserved separator), each over a
one-event history, starting from an empty cache. -/
noncomputable def separatorCache : Cache :=
  (computeEntityStats (computeEntityStats [] "a_b".data [0]).2 "a_c".data [0]).2

/-- C9 (counterexample): with the two distinct entities `"a_b"` and `"a_c"`
cached, `get_cache_stats` reports `cached_entities = 1`, not 2: splitting the
key on `'_'` truncates entity ids that contain the separator. -/
theorem cached_entities_conflates_ids_with_separator :
    separatorCache.map Prod.fst = ["a_b_1".data, "a_c_1".data] ∧
    "a_b".data ≠ "a_c".data ∧
    getCacheStats separatorCache = (2, 1) :=
  ⟨rfl, by decide, rfl⟩

/-- C6: `should_predict_event` applies its rules in order with the first match
winning: count below threshold rejects with confidence 0.0 and the
insufficient-sample reason regardless of the rate; otherwise a rate below
threshold rejects with the rate as confidence; otherwise the prediction is
authorized with the rate as confidence. -/
theorem should_predict_rule_cascade (wom : ℤ → ℤ) (cache : Cache) (e : PyStr) (d : ℤ)
    (h : List ℤ) (mc : ℤ) (mr : ℚ) :
    (((extractFeatures wom cache e d h).1.weekday_occurrence_count : ℤ) < mc →
      (shouldPredictEvent wom cache e d h mc mr).1 =
        (false, 0, Reason.insufficientSample
          (extractFeatures wom cache e d h).1.weekday_occurrence_count mc)) ∧
    (¬ (((extractFeatures wom cache e d h).1.weekday_occurrence_count : ℤ) < mc) →
      (extractFeatures wom cache e d h).1.weekday_occurrence_rate < mr →
      (shouldPredictEvent wom cache e d h mc mr).1 =
        (false, (extractFeatures wom cache e d h).1.weekday_occurrence_rate,
          Reason.rateTooLow (extractFeatures wom cache e d h).1.weekday_occurrence_rate mr)) ∧
    (¬ (((extractFeatures wom cache e d h).1.weekday_occurrence_count : ℤ) < mc) →
      ¬ ((extractFeatures wom cache e d h).1.weekday_occurrence_rate < mr) →
      (shouldPredictEvent wom cache e d h mc mr).1 =
        (true, (extractFeatures wom cache e d h).1.weekday_occurrence_rate,
          Reason.authorized (extractFeatures wom cache e d h).1.weekday_occurrence_rate
            (extractFeatures wom cache e d h).1.weekday_occurrence_count)) := by
  unfold shouldPredictEvent
  refine ⟨fun h1 => ?_, fun h1 h2 => ?_, fun h1 h2 => ?_⟩
  · rw [if_pos h1]
  · rw [if_neg h1, if_pos h2]
  · rw [if_neg h1, if_neg h2]

/-- C6 (witness): on the fresh-cache history `[0, 7]` (two Mondays, rate 1)
with the source defaults `min_occurrence_count = 2`,
`min_occurrence_rate = 15/100`, the cascade reaches the authorized rule. -/
theorem should_predict_rule_cascade_app :
    (shouldPredictEvent (fun _ => 1) [] ['e'] 0 [0, 7] 2 (15/100)).1 =
      (true, 1, Reason.authorized 1 2) := by
  have hrate : (extractFeatures (fun _ => 1) [] ['e'] 0 [0, 7]).1.weekday_occurrence_rate
      = 1 := by
    have h1 : (sortDates [0, 7]).countP (fun d => weekday d == 0) = 2 := by decide
    have h2 : countWeekdaysInRange (minDate (sortDates [0, 7]))
        (maxDate (sortDates [0, 7])) 0 = 2 := by decide
    show (weekdayStat (sortDates [0, 7]) (minDate (sortDates [0, 7]))
        (maxDate (sortDates [0, 7])) 0).occurrence_rate = 1
    simp only [weekdayStat, h1, h2]
    norm_num
  have happ := (should_predict_rule_cascade (fun _ => 1) [] ['e'] 0 [0, 7] 2 (15/100)).2.2
    (by decide) (by rw [hrate]; norm_num)
  rw [happ, hrate]
  rfl

end OccurrenceFeatures
